import Mathlib

set_option maxRecDepth 4000

/-!
Verification of the price-optimization agent in `droidrun_mobile_agent.py`.

The development shallowly embeds the pure/decision content of the script:

* the two price-parsing helpers `extract_price_from_text` and
  `extract_price_value` (including a character-level model of the regexes
  `\d+(?:\.\d{1,2})?` and `[\d.]+` and of Python `str.replace`/`strip`
  and `float` on digit/dot tokens);
* the screen predicate `check_out_of_stock`;
* the Gemini-response parsing (a JSON fragment parser models `json.loads`
  on the shapes exercised by the script);
* the scroll-search strategy `smart_scroll_and_find_cheaper` and the
  optimization loop `process_product_page_loop`, as deterministic functions
  of an input trace describing what the device and the vision oracle return.

Python floats are modelled as exact rationals (`ℚ`); `float('inf')` as `⊤`
in `WithTop ℚ`; Python `None` as `Option.none`.  Exceptions raised by
device/oracle calls are modelled by explicit Boolean inputs at the places
the script catches them.
-/

/-! ## Character-level utilities (Python `str` fragment) -/

/-- Whitespace characters removed by Python `str.strip()`. -/
def isWs (c : Char) : Bool :=
  c == ' ' || c == '\t' || c == '\n' || c == '\r' || c == '\x0b' || c == '\x0c'

/-- Fuel-driven worker for `remAll`: Python `str.replace(pat, '')`, which
removes all non-overlapping occurrences of `pat` scanning left to right.
The fuel is an upper bound on the input length; each step consumes at least
one character, so `remAllF cs.length pat cs` computes the full result. -/
def remAllF : ℕ → List Char → List Char → List Char
  | 0, _, s => s
  | _ + 1, _, [] => []
  | f + 1, pat, c :: rest =>
    if !pat.isEmpty && pat.isPrefixOf (c :: rest) then
      remAllF f pat (List.drop pat.length (c :: rest))
    else
      c :: remAllF f pat rest

/-- Python `cs.replace(pat, '')`. -/
def remAll (pat : List Char) (cs : List Char) : List Char := remAllF cs.length pat cs

/-- The cleaning pipeline shared by both price parsers (lines 433 and 445):
`.replace('₹','').replace('Rs','').replace(',','').replace('Rs.','')`. -/
def pyClean (cs : List Char) : List Char :=
  remAll "Rs.".toList (remAll [','] (remAll "Rs".toList (remAll ['₹'] cs)))

/-- Python `str.strip()`: drop leading and trailing whitespace. -/
def pyStrip (cs : List Char) : List Char :=
  ((cs.dropWhile isWs).reverse.dropWhile isWs).reverse

/-- Characters matched by the regex class `[\d.]`. -/
def tokChar (c : Char) : Bool := c.isDigit || c == '.'

/-- The optional fractional part of the regex `\d+(?:\.\d{1,2})?`, applied to
the text following the integral digit run: a dot followed by at least one
digit contributes the dot and (greedily) up to two digits. -/
def tokFrac : List Char → List Char
  | [] => []
  | c :: tl =>
    if c = '.' then
      if (tl.takeWhile Char.isDigit).isEmpty then []
      else '.' :: (tl.takeWhile Char.isDigit).take 2
    else []

/-- First match of `re.search(r'(\d+(?:\.\d{1,2})?)', text)` (line 434):
scan to the first digit, take the maximal digit run, then the optional
fraction. -/
def tok1 : List Char → Option (List Char)
  | [] => none
  | c :: rest =>
    if c.isDigit then
      some (List.takeWhile Char.isDigit (c :: rest)
            ++ tokFrac (List.dropWhile Char.isDigit (c :: rest)))
    else tok1 rest

/-- First match of `re.search(r'[\d.]+', price_str)` (line 446): the maximal
run of digits and dots starting at the first such character. -/
def tok2 : List Char → Option (List Char)
  | [] => none
  | c :: rest =>
    if tokChar c then some (List.takeWhile tokChar (c :: rest))
    else tok2 rest

/-- Numeric value of a digit run, most significant first. -/
def digitsVal (ds : List Char) : ℕ := ds.foldl (fun a c => a * 10 + (c.toNat - 48)) 0

/-- Python `float(t)` on a token drawn from the digit/dot character class,
modelled exactly over `ℚ`: it succeeds iff the token contains at least one
digit, at most one dot, and nothing but digits and dots (e.g. `float("1.2.3")`
and `float(".")` raise, `float(".5")` and `float("5.")` succeed). -/
def pyFloat (t : List Char) : Option ℚ :=
  match t.dropWhile (· != '.') with
  | [] =>
    if !(t.takeWhile (· != '.')).isEmpty && (t.takeWhile (· != '.')).all Char.isDigit then
      some (digitsVal (t.takeWhile (· != '.')) : ℚ)
    else none
  | _ :: fp =>
    if '.' ∈ fp then none
    else if ((t.takeWhile (· != '.')).all Char.isDigit && fp.all Char.isDigit)
            && (!(t.takeWhile (· != '.')).isEmpty || !fp.isEmpty) then
      some ((digitsVal (t.takeWhile (· != '.')) : ℚ) + (digitsVal fp : ℚ) / (10 : ℚ) ^ fp.length)
    else none

/-! ## Price parsers (lines 430–452) -/

/-- `extract_price_from_text` (lines 430–440): the null-returning variant.
`None` or an empty string is falsy (`if not text`), then currency markers are
removed, the text is stripped, and the first `\d+(?:\.\d{1,2})?` match is
parsed with `float`, any failure yielding `None`. -/
def extract_price_from_text (text : Option String) : Option ℚ :=
  match text with
  | none => none
  | some s =>
    if s = "" then none
    else
      match tok1 (pyStrip (pyClean s.toList)) with
      | some t => pyFloat t
      | none => none

/-- `extract_price_value` (lines 442–452): the sorting variant. Falsy input
or the literal `'N/A'` yields `float('inf')` (`⊤`); otherwise the same
replacements are applied (without `strip`), the first `[\d.]+` match is
parsed with `float`, and any failure yields `⊤`. -/
def extract_price_value (price_str : Option String) : WithTop ℚ :=
  match price_str with
  | none => ⊤
  | some s =>
    if s = "" ∨ s = "N/A" then ⊤
    else
      match tok2 (pyClean s.toList) with
      | some t =>
        match pyFloat t with
        | some v => (v : WithTop ℚ)
        | none => ⊤
      | none => ⊤

/-! ## Out-of-stock check (lines 516–553)

A screen is modelled by the function `contains : String → Bool` giving the
result of `device(textContains=t).exists(...)` for each query `t`; a raising
query is modelled as answering `false` (each indicator query sits in its own
`try/except: pass`).  The single `try` wrapped around the whole button loop
can abort that loop part-way, which is modelled by the extra flag
`btnCheckErr` (when true, the button check is skipped entirely and control
falls through to the final `return out_of_stock_count > 0`). -/

/-- The fixed unavailability phrases (lines 518–526). -/
def stock_indicators : List String :=
  ["Out of Stock", "Currently unavailable", "Notify Me", "Sold Out",
   "Not Available", "out of stock", "currently unavailable"]

/-- The purchase-affordance button labels (line 545). -/
def add_to_cart_buttons : List String :=
  ["Add to Cart", "ADD TO CART", "Add to Bag", "Buy Now", "BUY NOW"]

/-- `check_out_of_stock` (lines 516–553): count the unavailability phrases
present; with two or more, return true immediately; otherwise, if any
purchase-affordance button is present (and the button check did not raise),
return false; otherwise return whether at least one phrase was found. -/
def check_out_of_stock (contains : String → Bool) (btnCheckErr : Bool) : Bool :=
  let out_of_stock_count := (stock_indicators.filter contains).length
  if 2 ≤ out_of_stock_count then true
  else if !btnCheckErr && add_to_cart_buttons.any contains then false
  else decide (0 < out_of_stock_count)

/-! ## JSON values and a model of `json.loads`

The script feeds Gemini's response text to `json.loads`.  `Json` and
`parseV`/`parseArr`/`parseObj` model the JSON fragment the script exchanges
with the oracle (objects, arrays, strings without escape sequences, decimal
numbers without exponents, booleans, null); `pyJson` additionally requires
the whole input to be consumed, as `json.loads` does.  Python dicts built by
`json.loads` keep the last occurrence of a duplicated key, hence the lookup
on the reversed key list in `jGet`. -/

/-- JSON values. -/
inductive Json where
  | null : Json
  | bool : Bool → Json
  | num : ℚ → Json
  | str : List Char → Json
  | arr : List Json → Json
  | obj : List (List Char × Json) → Json

/-- JSON insignificant whitespace. -/
def jWs (c : Char) : Bool := c == ' ' || c == '\t' || c == '\n' || c == '\r'

/-- Parse a JSON string body (after the opening quote, no escape support). -/
def parseStr (cs : List Char) : Option (List Char × List Char) :=
  match cs.dropWhile (fun c => c != '"' && c != '\\') with
  | '"' :: tl => some (cs.takeWhile (fun c => c != '"' && c != '\\'), tl)
  | _ => none

/-- Parse a JSON number (optional minus, digits, optional fraction). -/
def parseNum (cs : List Char) : Option (Json × List Char) :=
  let neg : Bool := match cs with | '-' :: _ => true | _ => false
  let cs1 := match cs with | '-' :: tl => tl | _ => cs
  let ds := cs1.takeWhile Char.isDigit
  if ds.isEmpty then none
  else
    match cs1.dropWhile Char.isDigit with
    | '.' :: r2 =>
      let fs := r2.takeWhile Char.isDigit
      if fs.isEmpty then none
      else
        let q : ℚ := (digitsVal ds : ℚ) + (digitsVal fs : ℚ) / (10 : ℚ) ^ fs.length
        some (.num (if neg then -q else q), r2.dropWhile Char.isDigit)
    | r => some (.num (if neg then -(digitsVal ds : ℚ) else (digitsVal ds : ℚ)), r)

mutual

/-- Parse one JSON value; the fuel dominates the recursion depth. -/
def parseV : ℕ → List Char → Option (Json × List Char)
  | 0, _ => none
  | f + 1, cs =>
    match cs.dropWhile jWs with
    | [] => none
    | c :: rest =>
      if c = '{' then
        match rest.dropWhile jWs with
        | '}' :: tl => some (.obj [], tl)
        | _ => parseObj f rest []
      else if c = '[' then
        match rest.dropWhile jWs with
        | ']' :: tl => some (.arr [], tl)
        | _ => parseArr f rest []
      else if c = '"' then
        match parseStr rest with
        | some (s, tl) => some (.str s, tl)
        | none => none
      else if c = 't' then
        if "rue".toList.isPrefixOf rest then some (.bool true, rest.drop 3) else none
      else if c = 'f' then
        if "alse".toList.isPrefixOf rest then some (.bool false, rest.drop 4) else none
      else if c = 'n' then
        if "ull".toList.isPrefixOf rest then some (.null, rest.drop 3) else none
      else parseNum (c :: rest)

/-- Parse the elements of a non-empty JSON array (after `[` or `,`). -/
def parseArr : ℕ → List Char → List Json → Option (Json × List Char)
  | 0, _, _ => none
  | f + 1, cs, acc =>
    match parseV f cs with
    | some (v, cs1) =>
      match cs1.dropWhile jWs with
      | ',' :: tl => parseArr f tl (v :: acc)
      | ']' :: tl => some (.arr (v :: acc).reverse, tl)
      | _ => none
    | none => none

/-- Parse the members of a non-empty JSON object (after `{` or `,`). -/
def parseObj : ℕ → List Char → List (List Char × Json) → Option (Json × List Char)
  | 0, _, _ => none
  | f + 1, cs, acc =>
    match cs.dropWhile jWs with
    | '"' :: r1 =>
      match parseStr r1 with
      | some (k, r2) =>
        match r2.dropWhile jWs with
        | ':' :: r3 =>
          match parseV f r3 with
          | some (v, r4) =>
            match r4.dropWhile jWs with
            | ',' :: tl => parseObj f tl ((k, v) :: acc)
            | '}' :: tl => some (.obj ((k, v) :: acc).reverse, tl)
            | _ => none
          | none => none
        | _ => none
      | none => none
    | _ => none

end

/-- `json.loads`: parse a complete JSON document, rejecting trailing text. -/
def pyJson (cs : List Char) : Option Json :=
  match parseV (2 * cs.length + 4) cs with
  | some (v, rest) => if (rest.dropWhile jWs).isEmpty then some v else none
  | none => none

/-- Last-occurrence key lookup in a parsed JSON object (Python dict). -/
def jGet (kvs : List (List Char × Json)) (k : String) : Option Json :=
  kvs.reverse.lookup k.toList

/-- Numeric payload of a JSON value, or `none`. -/
def jNum : Json → Option ℚ
  | .num q => some q
  | _ => none

/-- Python truthiness of a JSON-decoded value. -/
def rawTruthy : Json → Bool
  | .arr xs => !xs.isEmpty
  | .obj kvs => !kvs.isEmpty
  | .num q => decide (q ≠ 0)
  | .str s => !s.isEmpty
  | .bool b => b
  | .null => false

/-! ## Gemini response processing (lines 267–303, 681–745, 1382–1418) -/

/-- `response_text.replace('```json', '').replace('```', '').strip()`
(lines 271, 685, 1386). -/
def stripFences (s : String) : List Char :=
  pyStrip (remAll "```".toList (remAll "```json".toList s.toList))

/-- The substring matched by `re.search(r'\[.*\]', text, re.DOTALL)` (and,
with braces, its spec-side analogue): from the first opening delimiter to
the last closing delimiter occurring after it. -/
def subFromTo (op cl : Char) (cs : List Char) : Option (List Char) :=
  match cs.dropWhile (fun c => c != op) with
  | [] => none
  | o :: tl =>
    let body := (tl.reverse.dropWhile (fun c => c != cl)).reverse
    if body.isEmpty then none else some (o :: body)

/-- A cheaper-product candidate as consumed by `smart_scroll_and_find_cheaper`.
Tap coordinates never influence any modelled outcome (a failing tap falls back
to an adb tap, and both paths return the same result), so non-numeric
coordinate payloads are represented by `0`. -/
structure Candidate where
  price : ℚ
  x : ℚ
  y : ℚ
  title : String
deriving DecidableEq

/-- Result of `analyze_screenshot_for_cheaper_products`: a well-typed list of
candidates, or (`ill = true`) a truthy value returned raw by the bracket
fallback whose later handling in `smart_scroll_and_find_cheaper` raises. -/
structure OracleResult where
  cands : List Candidate
  ill : Bool
deriving DecidableEq

/-- One candidate as validated by the printing loop at lines 276–284: the
item must be an object whose `price` is a number (it enters the savings
subtraction), whose `x`, `y` keys exist (they are printed), and whose
`title` is a string (it is sliced). -/
def candOf (item : Json) : Option Candidate :=
  match item with
  | .obj kvs =>
    match jGet kvs "price", jGet kvs "x", jGet kvs "y", jGet kvs "title" with
    | some pv, some xv, some yv, some (.str tv) =>
      match jNum pv with
      | some p => some ⟨p, (jNum xv).getD 0, (jNum yv).getD 0, String.mk tv⟩
      | none => none
    | _, _, _, _ => none
  | _ => none

/-- Lines 274–286: `json.loads` succeeded with `v`.  A non-empty list enters
the printing loop, whose first failure (ill-typed item, or the division by a
zero `current_price` in the savings percentage) is caught by the outer
`except` and yields `[]`; every falsy or non-list value also amounts to no
candidates (`if cheaper_products:` in the caller, or a raised iteration). -/
def candidatesOf (current_price : ℚ) (v : Json) : List Candidate :=
  match v with
  | .arr [] => []
  | .arr items =>
    if current_price = 0 then []
    else
      match items.mapM candOf with
      | some cs => cs
      | none => []
  | _ => []

/-- One candidate as required by `smart_scroll_and_find_cheaper` itself for a
value returned raw by the bracket fallback (line 294 skips the printing
loop): the sort key needs an object with a numeric `price`, and the tap needs
`x`, `y` keys present. -/
def fallCandOf (item : Json) : Option Candidate :=
  match item with
  | .obj kvs =>
    match jGet kvs "price", jGet kvs "x", jGet kvs "y" with
    | some pv, some xv, some yv =>
      match jNum pv with
      | some p =>
        some ⟨p, (jNum xv).getD 0, (jNum yv).getD 0,
              match jGet kvs "title" with
              | some (.str t) => String.mk t
              | _ => ""⟩
      | none => none
    | _, _, _ => none
  | _ => none

/-- Classification of a raw value returned by the bracket fallback: falsy
values behave as no candidates; a well-typed list yields its candidates; any
other truthy value makes the caller's `sort`/indexing raise, which the
caller's outer `except` turns into `(False, current_price)` (`ill`). -/
def fallbackResult (v : Json) : OracleResult :=
  if !rawTruthy v then ⟨[], false⟩
  else
    match v with
    | .arr items =>
      match items.mapM fallCandOf with
      | some cs => ⟨cs, false⟩
      | none => ⟨[], true⟩
    | _ => ⟨[], true⟩

/-- The response-processing of `analyze_screenshot_for_cheaper_products`
(lines 267–303), as a function of the response text (the screenshot and the
vision call itself are the external input producing that text): strip code
fences, try `json.loads`, validate via the printing loop; on a parse error,
re-try `json.loads` on the `\[.*\]` substring and return its value raw; if
everything fails, return `[]`. -/
def analyze_screenshot_for_cheaper_products (current_price : ℚ)
    (response_text : String) : OracleResult :=
  let cs := stripFences response_text
  match pyJson cs with
  | some v => ⟨candidatesOf current_price v, false⟩
  | none =>
    match subFromTo '[' ']' cs with
    | some sub =>
      match pyJson sub with
      | some v => fallbackResult v
      | none => ⟨[], false⟩
    | none => ⟨[], false⟩

/-- The response-processing of the find-available-exact-match call in the
out-of-stock branch (lines 681–745): strip code fences and try `json.loads`;
a `json.JSONDecodeError` is only logged (lines 738–739) — there is no
pattern-search fallback — so a parse failure yields no candidate. -/
def parse_available_response (response_text : String) : Option Json :=
  pyJson (stripFences response_text)

/-- Modelled from the spec: the parsing contract of §4.4 applied to the
single available-candidate shape, including the step the source lacks for
this shape — "on parse failure, a best-effort fallback attempts to extract
the first well-formed bracketed/braced JSON substring via pattern search".
The pattern search is the braced analogue of the `\[.*\]` search used for
the list shape. -/
def spec_available_with_fallback (response_text : String) : Option Json :=
  let cs := stripFences response_text
  match pyJson cs with
  | some v => some v
  | none =>
    match subFromTo '{' '}' cs with
    | some sub => pyJson sub
    | none => none

/-! ## Scroll-search strategy (lines 309–424)

`smart_scroll_and_find_cheaper` is deterministic once the results of its
device and oracle calls are fixed; a `ScrollStep` records those results for
one iteration of the `for scroll_num in range(max_scrolls)` loop:

* `captureOk` — whether `capture_screenshot` returned a path (line 336);
* `oracle` — the `OracleResult` produced by
  `analyze_screenshot_for_cheaper_products` for that screenshot;
* `clickOk` — whether `device.click` succeeded (line 363); the value is
  irrelevant to every modelled outcome because the `except` branch
  (lines 377–390) performs the same global update and returns the same
  `(True, best_price)` through the adb fallback;
* `hashBefore`/`hashAfter` — the two `hash(device.dump_hierarchy())`
  snapshots around the swipe (lines 398–405);
* `scrollErr` — an exception inside the dump/swipe block (line 411),
  modelled as the first dump raising, which breaks out of the loop.

`ScrollResult` carries, besides the returned `(found, price)` pair and the
updated `GLOBAL_LOWEST_PRICE`, the instrumentation counters `scrolls`
(swipe gestures performed) and `shots` (`screenshots_taken`). -/

/-- `if GLOBAL_LOWEST_PRICE is None or p < GLOBAL_LOWEST_PRICE:
GLOBAL_LOWEST_PRICE = p` — the only form of update the script ever applies
to the global lowest price (lines 367, 382, 708, 725, 770, 848, 861, 897). -/
def updateGlobal (g : Option ℚ) (p : ℚ) : Option ℚ :=
  match g with
  | none => some p
  | some v => if p < v then some p else some v

/-- Stable insertion used by `sortByPrice`. -/
def insertByPrice (c : Candidate) : List Candidate → List Candidate
  | [] => [c]
  | x :: xs => if x.price < c.price then x :: insertByPrice c xs else c :: x :: xs

/-- `cheaper_products.sort(key=lambda x: x['price'])` (line 347): stable
ascending sort by price. -/
def sortByPrice : List Candidate → List Candidate
  | [] => []
  | c :: cs => insertByPrice c (sortByPrice cs)

/-- Device/oracle results consumed by one scroll iteration. -/
structure ScrollStep where
  captureOk : Bool
  oracle : OracleResult
  clickOk : Bool
  hashBefore : Int
  hashAfter : Int
  scrollErr : Bool
deriving DecidableEq

/-- The result of a `smart_scroll_and_find_cheaper` run. -/
structure ScrollResult where
  found : Bool
  price : ℚ
  glob : Option ℚ
  scrolls : ℕ
  shots : ℕ
deriving DecidableEq

/-- `screenshots_taken` bookkeeping: a screenshot is captured (and counted)
exactly on the even-numbered steps on which `capture_screenshot` succeeds
(lines 335–340). -/
def shotBump (n : ℕ) (s : ScrollStep) (sh : ℕ) : ℕ :=
  if n % 2 = 0 ∧ s.captureOk then sh + 1 else sh

/-- The capture-and-analyze part of one scroll iteration (lines 335–395):
`some r` means the function returns `r` from inside this step — either the
tap on a strictly cheaper candidate (lines 350–390, returning
`(True, best_price)` after updating the global), or an exception raised
while handling the oracle value (an ill-typed fallback value, or the
division by a zero `current_price` in the savings percentage at line 355),
which the outer `except` turns into `(False, current_price)`.  `none` means
control falls through to the swipe. -/
def stepHit (current : ℚ) (g : Option ℚ) (n sc sh' : ℕ) (s : ScrollStep) :
    Option ScrollResult :=
  if n % 2 = 0 ∧ s.captureOk then
    if s.oracle.ill then some ⟨false, current, g, sc, sh'⟩
    else
      match sortByPrice s.oracle.cands with
      | [] => none
      | c :: _ =>
        if c.price < current then
          some (if current = 0 then ⟨false, current, g, sc, sh'⟩
                else ⟨true, c.price, updateGlobal g c.price, sc, sh'⟩)
        else none
  else none

/-- The `for scroll_num in range(max_scrolls)` loop of
`smart_scroll_and_find_cheaper` (lines 332–413): each step optionally
captures and analyzes, then performs the swipe inside its `try` block —
breaking out (with the final `return False, current_price` of line 418) if
the dump/swipe raises or if the content-tree hash is unchanged. -/
def scrollLoop (current : ℚ) : Option ℚ → ℕ → ℕ → ℕ → List ScrollStep → ScrollResult
  | g, _, sc, sh, [] => ⟨false, current, g, sc, sh⟩
  | g, n, sc, sh, s :: rest =>
    let sh' := shotBump n s sh
    match stepHit current g n sc sh' s with
    | some r => r
    | none =>
      if s.scrollErr then ⟨false, current, g, sc, sh'⟩
      else if s.hashBefore = s.hashAfter then ⟨false, current, g, sc + 1, sh'⟩
      else scrollLoop current g (n + 1) (sc + 1) sh' rest

/-- The trace of device/oracle behaviour for one
`smart_scroll_and_find_cheaper` call: `infoErr` models `device.info`
raising at line 317 (caught by the outer `except`, line 420). -/
structure ScrollInput where
  infoErr : Bool
  steps : List ScrollStep
deriving DecidableEq

/-- `smart_scroll_and_find_cheaper` (lines 309–424) as a function of the
incoming `GLOBAL_LOWEST_PRICE`, the `current_price` argument and the
device/oracle trace; `max_scrolls = 15` (line 327). -/
def smart_scroll_and_find_cheaper (g : Option ℚ) (current_price : ℚ)
    (inp : ScrollInput) : ScrollResult :=
  if inp.infoErr then ⟨false, current_price, g, 0, 0⟩
  else scrollLoop current_price g 0 0 0 (inp.steps.take 15)

/-! ## Optimization loop (lines 559–922)

`process_product_page_loop` is deterministic once the results of its device
and oracle calls are fixed.  An `IterInput` records those results for one
iteration of the `while iteration < max_iterations` loop:

* `title`/`price` — `extract_product_title_from_page` and
  `get_current_price_from_page` (lines 577–578);
* `hasError` — `check_page_errors` (line 599);
* `isOOS` — `check_out_of_stock` (line 611);
* `oosErr` — an exception anywhere in the out-of-stock Gemini block
  (`try` at line 618, `except` at line 747);
* `oosShot` — whether the screenshot of line 635 was captured;
* `avail` — the decoded available-product object of line 688 with
  well-typed fields (`none` for a `JSONDecodeError` or a non-dict value,
  both of which lead to the fallback search);
* `mainScroll` — the trace for the single pre-reload
  `smart_scroll_and_find_cheaper` call of the branch taken
  (lines 601, 752 or 775; the branches are mutually exclusive);
* `rvErr`, `rvOOS`, `rvOOS2`, `rvPrice`, `rvScroll` — the post-reload
  verification reads (lines 814–862; at most one of the error/stock
  branches calls the scroll search, so one trace suffices).

The checks at lines 783–790 (after switching to a cheaper variant) only
print — every arm is `continue` with unchanged state — and the repeated
`check_out_of_stock` at line 758 likewise selects between two `continue`
arms, so neither needs an input.  A `PostInput` records the reads of the
after-max-iterations block (lines 870–922).  `LoopState` is the script's
global state: `GLOBAL_LOWEST_PRICE`, `VISITED_PRODUCTS`, and
`PRICE_CHECK_HISTORY`; `normalHist` is instrumentation recording the prices
that reach the global-lowest update at line 770.  The fingerprint
`f"{current_title}_{current_price}"` is modelled as the pair of the
rendered title (`None` renders as the string `"None"`) and the price. -/

/-- `X if X else d` for the optional global price: Python treats both
`None` and `0` as falsy (lines 582, 766–767, 853–854, 890, 909). -/
def pyOr (g : Option ℚ) (d : ℚ) : ℚ :=
  match g with
  | none => d
  | some v => if v = 0 then d else v

/-- Lines 578–582: the price used by an iteration — the detected price if
truthy, else `GLOBAL_LOWEST_PRICE if GLOBAL_LOWEST_PRICE else 0`. -/
def readPrice (g : Option ℚ) (p : Option ℚ) : ℚ :=
  match p with
  | none => pyOr g 0
  | some v => if v = 0 then pyOr g 0 else v

/-- How Python renders the optional title inside the fingerprint f-string. -/
def pyTitleStr (t : Option String) : String :=
  match t with
  | none => "None"
  | some s => s

/-- The decoded find-available-exact-match object (lines 688–699) with
well-typed fields: `price` is the `'price'` entry if present and numeric,
`confOk` states `confidence in ['high', 'medium']`. -/
structure AvailResp where
  price : Option ℚ
  x : ℚ
  y : ℚ
  confOk : Bool
deriving DecidableEq

/-- Device/oracle results consumed by one loop iteration. -/
structure IterInput where
  title : Option String
  price : Option ℚ
  hasError : Bool
  isOOS : Bool
  oosErr : Bool
  oosShot : Bool
  avail : Option AvailResp
  mainScroll : ScrollInput
  rvErr : Bool
  rvOOS : Bool
  rvOOS2 : Bool
  rvPrice : Option ℚ
  rvScroll : ScrollInput
deriving DecidableEq

/-- Device/oracle results consumed by the after-max-iterations block
(lines 870–922): the stock re-check and its post-search re-check
(lines 885, 895), the error re-check and its re-check (lines 904, 913), and
the trace for the final scroll search (the two branches are mutually
exclusive because the stock branch returns in both arms). -/
structure PostInput where
  fOOS : Bool
  fOOS2 : Bool
  fErr : Bool
  fErr2 : Bool
  fScroll : ScrollInput
deriving DecidableEq

/-- The script's global mutable state: `GLOBAL_LOWEST_PRICE`,
`VISITED_PRODUCTS` (insertion order is irrelevant; the list never holds
duplicates because membership is checked before insertion),
`PRICE_CHECK_HISTORY`, plus the `normalHist` instrumentation. -/
structure LoopState where
  g : Option ℚ
  visited : List (String × ℚ)
  hist : List ℚ
  normalHist : List ℚ
deriving DecidableEq

/-- What `process_product_page_loop` returns, along with the final global
state. -/
structure LoopResult where
  success : Bool
  price : Option ℚ
  final : LoopState
deriving DecidableEq

/-- The state at program start (lines 99–101). -/
def initState : LoopState := ⟨none, [], [], []⟩

/-- Line 690: the Gemini available-product answer is acted on exactly when
the whole block did not raise, the screenshot was captured, the object was
decoded, `confidence in ['high', 'medium']`, and `get('x', 0) > 0`. -/
def oosAvailHit (inp : IterInput) : Option AvailResp :=
  if inp.oosErr ∨ ¬inp.oosShot then none
  else
    match inp.avail with
    | some a => if a.confOk ∧ 0 < a.x then some a else none
    | none => none

/-- One iteration of the loop body (lines 569–868).  `Sum.inl` is
`continue` with the new state; `Sum.inr` is a `return`.  In order: the
fingerprint check (lines 584–590, returning success on a revisit before any
other check), the error branch (lines 599–608), the out-of-stock branch
(lines 611–767: the Gemini available-match tap — whose two tap arms both
update the global with `get('price', current_price)` and `continue` — else
the fallback search), and the normal branch (lines 770–868: global update,
cheaper search, and on failure the reload-and-verify pass). -/
def loopIter (st : LoopState) (inp : IterInput) : LoopState ⊕ LoopResult :=
  let current := readPrice st.g inp.price
  let fp : String × ℚ := (pyTitleStr inp.title, current)
  if fp ∈ st.visited then .inr ⟨true, some current, st⟩
  else
    let st1 : LoopState :=
      { st with visited := fp :: st.visited, hist := st.hist ++ [current] }
    if inp.hasError then
      let r := smart_scroll_and_find_cheaper st1.g current inp.mainScroll
      if r.found then .inl { st1 with g := r.glob }
      else .inr ⟨false, some current, { st1 with g := r.glob }⟩
    else if inp.isOOS then
      match oosAvailHit inp with
      | some a => .inl { st1 with g := updateGlobal st1.g (a.price.getD current) }
      | none =>
        let r := smart_scroll_and_find_cheaper st1.g current inp.mainScroll
        if r.found then .inl { st1 with g := r.glob }
        else .inr ⟨false, some (pyOr r.glob current), { st1 with g := r.glob }⟩
    else
      let g1 := updateGlobal st1.g current
      let st2 : LoopState := { st1 with g := g1, normalHist := st1.normalHist ++ [current] }
      let r := smart_scroll_and_find_cheaper g1 current inp.mainScroll
      let st3 : LoopState := { st2 with g := r.glob }
      if r.found then .inl st3
      else if inp.rvErr then
        let r2 := smart_scroll_and_find_cheaper st3.g current inp.rvScroll
        if r2.found then .inl { st3 with g := r2.glob }
        else .inr ⟨false, some current, { st3 with g := r2.glob }⟩
      else if inp.rvOOS then
        let r2 := smart_scroll_and_find_cheaper st3.g current inp.rvScroll
        if r2.found then
          if inp.rvOOS2 then .inl { st3 with g := r2.glob }
          else .inl { st3 with g := updateGlobal r2.glob r2.price }
        else .inr ⟨false, some (pyOr r2.glob current), { st3 with g := r2.glob }⟩
      else
        match inp.rvPrice with
        | some p =>
          if p ≠ 0 ∧ p ≠ current then
            .inr ⟨true, some p, { st3 with g := updateGlobal st3.g p }⟩
          else .inr ⟨true, some current, st3⟩
        | none => .inr ⟨true, some current, st3⟩

/-- The after-max-iterations block (lines 870–922). -/
def postBlock (st : LoopState) (post : PostInput) : LoopResult :=
  if post.fOOS then
    let fprice := pyOr st.g 0
    let r := smart_scroll_and_find_cheaper st.g fprice post.fScroll
    if r.found ∧ ¬post.fOOS2 then
      ⟨true, some r.price, { st with g := updateGlobal r.glob r.price }⟩
    else ⟨false, r.glob, { st with g := r.glob }⟩
  else if post.fErr then
    let fprice := pyOr st.g 0
    let r := smart_scroll_and_find_cheaper st.g fprice post.fScroll
    if r.found ∧ ¬post.fErr2 then ⟨true, some r.price, { st with g := r.glob }⟩
    else ⟨false, r.glob, { st with g := r.glob }⟩
  else ⟨true, st.g, st⟩

/-- The `while iteration < max_iterations` loop: run up to `fuel` iterations
against the trace `world`, then the after-max-iterations block. -/
def loopGo (world : ℕ → IterInput) (post : PostInput) : ℕ → ℕ → LoopState → LoopResult
  | 0, _, st => postBlock st post
  | f + 1, i, st =>
    match loopIter st (world i) with
    | .inl st1 => loopGo world post f (i + 1) st1
    | .inr r => r

/-- `process_product_page_loop` (lines 559–922) with `max_iterations = 3`
(line 562), as a function of the incoming global state and of the trace of
device/oracle behaviour. -/
def process_product_page_loop (st : LoopState) (world : ℕ → IterInput)
    (post : PostInput) : LoopResult :=
  loopGo world post 3 0 st

/-- A quiescent scroll trace: no steps provided, so the scroll search fails
and returns the current price. -/
def defScroll : ScrollInput := ⟨false, []⟩

/-- A quiescent iteration: no title, no detected price, no error, in stock,
no scroll steps. -/
def defIter : IterInput :=
  ⟨none, none, false, false, false, false, none, defScroll, false, false, false,
   none, defScroll⟩

/-- A quiescent post-loop block. -/
def defPost : PostInput := ⟨false, false, false, false, defScroll⟩

/-- A one-step scroll trace offering a single candidate at the given price
(hash changes, so the scroll would continue if no hit occurred). -/
def offerScroll (p : ℚ) : ScrollInput :=
  ⟨false, [⟨true, ⟨[⟨p, 5, 9, "p"⟩], false⟩, true, 0, 1, false⟩]⟩

/-- A one-step scroll trace with no candidates whose content hash is
unchanged, ending the scroll search immediately. -/
def stuckScroll : ScrollInput := ⟨false, [⟨false, ⟨[], false⟩, true, 0, 0, false⟩]⟩

/-! ## Helper notions for the global-lowest price -/

/-- `g'` refines `g` downward: whenever `g` is set, `g'` is set and not
larger.  This is the sense in which `GLOBAL_LOWEST_PRICE` is monotonically
non-increasing once set. -/
def GlobalLe (gNew gOld : Option ℚ) : Prop :=
  ∀ v, gOld = some v → ∃ w, gNew = some w ∧ w ≤ v

/-- Price history bounded below by the global price: used for the invariant
that the global lowest is at most every normal-branch price. -/
def BoundsAll (g : Option ℚ) (ns : List ℚ) : Prop :=
  ∀ c ∈ ns, ∃ v, g = some v ∧ v ≤ c

/-- The state carried out of one loop iteration, whether it continues or
returns. -/
def stepState : LoopState ⊕ LoopResult → LoopState
  | .inl st1 => st1
  | .inr r => r.final

/-! ## Concrete traces used by counterexamples and witnesses -/

/-- A screen showing the texts `Out of Stock`, `Sold Out` and `Add to Cart`
(`textContains` is case-sensitive, so exactly two unavailability phrases and
one purchase affordance match). -/
def c1Screen : String → Bool := fun t => ["Out of Stock", "Sold Out", "Add to Cart"].contains t

/-- A screen showing only the text `Out of Stock`: one unavailability
phrase, no purchase affordance. -/
def c2Screen : String → Bool := fun t => ["Out of Stock"].contains t

/-- A run in which screen A shows price 100, the oracle points at a
candidate priced 90, but the screen reached by the tap shows price 150 and
offers nothing cheaper, so the loop verifies and succeeds at 150. -/
def cexWorldC3 : ℕ → IterInput := fun i =>
  match i with
  | 0 => { defIter with
           title := some "A"
           price := some 100
           mainScroll := offerScroll 90 }
  | 1 => { defIter with
           title := some "B"
           price := some 150
           mainScroll := stuckScroll }
  | _ => defIter

/-- A run whose first screen shows a page error at price 100 while the
oracle offers an alternative at exactly price 100 (not strictly cheaper). -/
def cexWorldC8 : ℕ → IterInput := fun i =>
  match i with
  | 0 => { defIter with
           title := some "E"
           price := some 100
           hasError := true
           mainScroll := offerScroll 100 }
  | _ => defIter

/-- A run whose first screen shows a page error at price 100 and whose
oracle offers a strictly cheaper alternative at 90. -/
def wWorldC8 : ℕ → IterInput := fun _ =>
  { defIter with
    title := some "E"
    price := some 100
    hasError := true
    mainScroll := offerScroll 90 }

/-- A state that has already visited the fingerprint (`T`, 7). -/
def wVisitedState : LoopState := ⟨some 9, [("T", 7)], [7], []⟩

/-- A run revisiting the screen titled `T` at price 7. -/
def wWorldC5 : ℕ → IterInput := fun _ =>
  { defIter with
    title := some "T"
    price := some 7 }

/-- A token has the overall shape of the regex `\d+(\.\d{1,2})?`: a
non-empty digit run, optionally followed by a dot and one or two digits. -/
def shapeOk (t : List Char) : Bool :=
  !(t.takeWhile Char.isDigit).isEmpty &&
    (match t.dropWhile Char.isDigit with
     | [] => true
     | c :: fs =>
       c = '.' && !fs.isEmpty && decide (fs.length ≤ 2) && fs.all Char.isDigit)

/-- An oracle response for the single available-candidate shape whose JSON
payload is preceded by stray text: `json.loads` fails on the whole text, but
the braced substring is well-formed. -/
def cexRespC9 : String :=
  "oops \x7b\"price\": 15, \"x\": 5, \"y\": 8, \"confidence\": \"high\", \"title\": \"P\"\x7d"

/-! ## Lemmas and claim theorems -/

theorem globalLe_refl (g : Option ℚ) : GlobalLe g g :=
  fun v hv => ⟨v, hv, le_refl v⟩

theorem globalLe_trans {g3 g2 g1 : Option ℚ} (h32 : GlobalLe g3 g2)
    (h21 : GlobalLe g2 g1) : GlobalLe g3 g1 := by
  intro v hv
  obtain ⟨w, hw, hwv⟩ := h21 v hv
  obtain ⟨x, hx, hxw⟩ := h32 w hw
  exact ⟨x, hx, le_trans hxw hwv⟩

theorem globalLe_update (g : Option ℚ) (p : ℚ) : GlobalLe (updateGlobal g p) g := by
  intro v hv
  cases g with
  | none => exact absurd hv (by simp)
  | some u =>
    have hu : u = v := by simpa using hv
    subst hu
    by_cases h : p < u
    · exact ⟨p, by simp [updateGlobal, h], le_of_lt h⟩
    · exact ⟨u, by simp [updateGlobal, h], le_refl u⟩

theorem updateGlobal_some (g : Option ℚ) (p : ℚ) :
    ∃ w, updateGlobal g p = some w ∧ w ≤ p := by
  cases g with
  | none => exact ⟨p, rfl, le_refl p⟩
  | some u =>
    by_cases h : p < u
    · exact ⟨p, by simp [updateGlobal, h], le_refl p⟩
    · exact ⟨u, by simp [updateGlobal, h], le_of_not_lt h⟩

theorem boundsAll_mono {g' g : Option ℚ} {ns : List ℚ} (hle : GlobalLe g' g)
    (hb : BoundsAll g ns) : BoundsAll g' ns := by
  intro c hc
  obtain ⟨v, hv, hvc⟩ := hb c hc
  obtain ⟨w, hw, hwv⟩ := hle v hv
  exact ⟨w, hw, le_trans hwv hvc⟩

theorem boundsAll_append {g' g : Option ℚ} {ns : List ℚ} {c : ℚ}
    (hle : GlobalLe g' (updateGlobal g c)) (hb : BoundsAll g ns)
    (hg' : GlobalLe g' g) : BoundsAll g' (ns ++ [c]) := by
  intro d hd
  rcases List.mem_append.mp hd with hd | hd
  · exact boundsAll_mono hg' hb d hd
  · have hdc : d = c := by simpa using hd
    obtain ⟨w, hw, hwc⟩ := updateGlobal_some g c
    obtain ⟨x, hx, hxw⟩ := hle w hw
    exact ⟨x, hx, hdc ▸ le_trans hxw hwc⟩

/-! ## Scroll-loop lemmas -/

theorem stepHit_spec {current : ℚ} {g : Option ℚ} {n sc sh' : ℕ}
    {s : ScrollStep} {r : ScrollResult}
    (h : stepHit current g n sc sh' s = some r) :
    (r.found = true → r.price < current) ∧ (r.found = false → r.price = current) ∧
    GlobalLe r.glob g ∧ r.scrolls = sc := by
  unfold stepHit at h
  by_cases hcap : n % 2 = 0 ∧ s.captureOk = true
  · rw [if_pos hcap] at h
    by_cases hill : s.oracle.ill = true
    · rw [if_pos hill] at h
      cases h
      exact ⟨by simp, fun _ => rfl, globalLe_refl g, rfl⟩
    · rw [if_neg hill] at h
      cases hsort : sortByPrice s.oracle.cands with
      | nil => rw [hsort] at h; cases h
      | cons c cs =>
        rw [hsort] at h
        dsimp only at h
        by_cases hlt : c.price < current
        · rw [if_pos hlt] at h
          by_cases hz : current = 0
          · rw [if_pos hz] at h
            cases h
            exact ⟨by simp, fun _ => rfl, globalLe_refl g, rfl⟩
          · rw [if_neg hz] at h
            cases h
            exact ⟨fun _ => hlt, by simp, globalLe_update g c.price, rfl⟩
        · rw [if_neg hlt] at h
          cases h
  · rw [if_neg hcap] at h
    cases h

theorem scrollLoop_spec (current : ℚ) (steps : List ScrollStep) :
    ∀ (g : Option ℚ) (n sc sh : ℕ),
      ((scrollLoop current g n sc sh steps).found = true →
        (scrollLoop current g n sc sh steps).price < current) ∧
      ((scrollLoop current g n sc sh steps).found = false →
        (scrollLoop current g n sc sh steps).price = current) ∧
      GlobalLe (scrollLoop current g n sc sh steps).glob g ∧
      (scrollLoop current g n sc sh steps).scrolls ≤ sc + steps.length := by
  induction steps with
  | nil =>
    intro g n sc sh
    exact ⟨by simp [scrollLoop], fun _ => rfl, globalLe_refl g, by simp [scrollLoop]⟩
  | cons s rest ih =>
    intro g n sc sh
    rw [scrollLoop]
    cases hh : stepHit current g n sc (shotBump n s sh) s with
    | some r =>
      simp only [hh]
      obtain ⟨h1, h2, h3, h4⟩ := stepHit_spec hh
      exact ⟨h1, h2, h3, by simp [h4]⟩
    | none =>
      simp only [hh]
      split
      · exact ⟨by simp, fun _ => rfl, globalLe_refl g, by simp⟩
      · split
        · refine ⟨by simp, fun _ => rfl, globalLe_refl g, ?_⟩
          simp only [List.length_cons]
          omega
        · obtain ⟨h1, h2, h3, h4⟩ := ih g (n + 1) (sc + 1) (shotBump n s sh)
          refine ⟨h1, h2, h3, ?_⟩
          simp only [List.length_cons]
          omega

theorem smart_scroll_spec (g : Option ℚ) (current : ℚ) (inp : ScrollInput) :
    ((smart_scroll_and_find_cheaper g current inp).found = true →
      (smart_scroll_and_find_cheaper g current inp).price < current) ∧
    ((smart_scroll_and_find_cheaper g current inp).found = false →
      (smart_scroll_and_find_cheaper g current inp).price = current) ∧
    GlobalLe (smart_scroll_and_find_cheaper g current inp).glob g ∧
    (smart_scroll_and_find_cheaper g current inp).scrolls ≤ 15 := by
  unfold smart_scroll_and_find_cheaper
  split
  · exact ⟨by simp, fun _ => rfl, globalLe_refl g, by simp⟩
  · obtain ⟨h1, h2, h3, h4⟩ := scrollLoop_spec current (inp.steps.take 15) g 0 0 0
    refine ⟨h1, h2, h3, le_trans h4 ?_⟩
    have := List.length_take_le 15 inp.steps
    omega

theorem scrollLoop_hash_stop (current : ℚ) (g : Option ℚ) (n sc sh : ℕ)
    (s : ScrollStep) (rest : List ScrollStep)
    (hnh : stepHit current g n sc (shotBump n s sh) s = none)
    (he : s.scrollErr = false) (hh : s.hashBefore = s.hashAfter) :
    scrollLoop current g n sc sh (s :: rest)
      = ⟨false, current, g, sc + 1, shotBump n s sh⟩ := by
  rw [scrollLoop]
  simp [hnh, he, hh]

/-! ## Loop-iteration lemmas -/

theorem loopIter_glob (st : LoopState) (inp : IterInput) :
    GlobalLe (stepState (loopIter st inp)).g st.g := by
  simp only [loopIter]
  split
  · exact globalLe_refl st.g
  · split
    · split
      · exact (smart_scroll_spec _ _ _).2.2.1
      · exact (smart_scroll_spec _ _ _).2.2.1
    · split
      · split
        · exact globalLe_update _ _
        · split
          · exact (smart_scroll_spec _ _ _).2.2.1
          · exact (smart_scroll_spec _ _ _).2.2.1
      · split
        · exact globalLe_trans (smart_scroll_spec _ _ _).2.2.1 (globalLe_update _ _)
        · split
          · split
            · exact globalLe_trans (globalLe_trans (smart_scroll_spec _ _ _).2.2.1
                (smart_scroll_spec _ _ _).2.2.1) (globalLe_update _ _)
            · exact globalLe_trans (globalLe_trans (smart_scroll_spec _ _ _).2.2.1
                (smart_scroll_spec _ _ _).2.2.1) (globalLe_update _ _)
          · split
            · split
              · split
                · exact globalLe_trans (globalLe_trans (smart_scroll_spec _ _ _).2.2.1
                    (smart_scroll_spec _ _ _).2.2.1) (globalLe_update _ _)
                · exact globalLe_trans (globalLe_trans (globalLe_update _ _)
                    (globalLe_trans (smart_scroll_spec _ _ _).2.2.1
                      (smart_scroll_spec _ _ _).2.2.1)) (globalLe_update _ _)
              · exact globalLe_trans (globalLe_trans (smart_scroll_spec _ _ _).2.2.1
                  (smart_scroll_spec _ _ _).2.2.1) (globalLe_update _ _)
            · split
              · split
                · exact globalLe_trans (globalLe_trans (globalLe_update _ _)
                    (smart_scroll_spec _ _ _).2.2.1) (globalLe_update _ _)
                · exact globalLe_trans (smart_scroll_spec _ _ _).2.2.1 (globalLe_update _ _)
              · exact globalLe_trans (smart_scroll_spec _ _ _).2.2.1 (globalLe_update _ _)

theorem loopIter_visited (st : LoopState) (inp : IterInput) :
    st.visited ⊆ (stepState (loopIter st inp)).visited := by
  simp only [loopIter]
  repeat' split
  all_goals first
    | exact List.Subset.refl _
    | exact List.subset_cons_self _ _

theorem loopIter_bounds (st : LoopState) (inp : IterInput)
    (hb : BoundsAll st.g st.normalHist) :
    BoundsAll (stepState (loopIter st inp)).g
      (stepState (loopIter st inp)).normalHist := by
  simp only [loopIter]
  split
  · exact hb
  · split
    · split
      · exact boundsAll_mono (smart_scroll_spec _ _ _).2.2.1 hb
      · exact boundsAll_mono (smart_scroll_spec _ _ _).2.2.1 hb
    · split
      · split
        · exact boundsAll_mono (globalLe_update _ _) hb
        · split
          · exact boundsAll_mono (smart_scroll_spec _ _ _).2.2.1 hb
          · exact boundsAll_mono (smart_scroll_spec _ _ _).2.2.1 hb
      · split
        · exact boundsAll_append (smart_scroll_spec _ _ _).2.2.1 hb
            (globalLe_trans (smart_scroll_spec _ _ _).2.2.1 (globalLe_update _ _))
        · split
          · split
            · exact boundsAll_append
                (globalLe_trans (smart_scroll_spec _ _ _).2.2.1 (smart_scroll_spec _ _ _).2.2.1)
                hb
                (globalLe_trans (globalLe_trans (smart_scroll_spec _ _ _).2.2.1
                  (smart_scroll_spec _ _ _).2.2.1) (globalLe_update _ _))
            · exact boundsAll_append
                (globalLe_trans (smart_scroll_spec _ _ _).2.2.1 (smart_scroll_spec _ _ _).2.2.1)
                hb
                (globalLe_trans (globalLe_trans (smart_scroll_spec _ _ _).2.2.1
                  (smart_scroll_spec _ _ _).2.2.1) (globalLe_update _ _))
          · split
            · split
              · split
                · exact boundsAll_append
                    (globalLe_trans (smart_scroll_spec _ _ _).2.2.1
                      (smart_scroll_spec _ _ _).2.2.1)
                    hb
                    (globalLe_trans (globalLe_trans (smart_scroll_spec _ _ _).2.2.1
                      (smart_scroll_spec _ _ _).2.2.1) (globalLe_update _ _))
                · exact boundsAll_append
                    (globalLe_trans (globalLe_update _ _)
                      (globalLe_trans (smart_scroll_spec _ _ _).2.2.1
                        (smart_scroll_spec _ _ _).2.2.1))
                    hb
                    (globalLe_trans (globalLe_trans (globalLe_update _ _)
                      (globalLe_trans (smart_scroll_spec _ _ _).2.2.1
                        (smart_scroll_spec _ _ _).2.2.1)) (globalLe_update _ _))
              · exact boundsAll_append
                  (globalLe_trans (smart_scroll_spec _ _ _).2.2.1
                    (smart_scroll_spec _ _ _).2.2.1)
                  hb
                  (globalLe_trans (globalLe_trans (smart_scroll_spec _ _ _).2.2.1
                    (smart_scroll_spec _ _ _).2.2.1) (globalLe_update _ _))
            · split
              · split
                · exact boundsAll_append
                    (globalLe_trans (globalLe_update _ _) (smart_scroll_spec _ _ _).2.2.1)
                    hb
                    (globalLe_trans (globalLe_trans (globalLe_update _ _)
                      (smart_scroll_spec _ _ _).2.2.1) (globalLe_update _ _))
                · exact boundsAll_append (smart_scroll_spec _ _ _).2.2.1 hb
                    (globalLe_trans (smart_scroll_spec _ _ _).2.2.1 (globalLe_update _ _))
              · exact boundsAll_append (smart_scroll_spec _ _ _).2.2.1 hb
                  (globalLe_trans (smart_scroll_spec _ _ _).2.2.1 (globalLe_update _ _))

theorem postBlock_glob (st : LoopState) (post : PostInput) :
    GlobalLe (postBlock st post).final.g st.g := by
  simp only [postBlock]
  split
  · split
    · exact globalLe_trans (globalLe_update _ _) (smart_scroll_spec _ _ _).2.2.1
    · exact (smart_scroll_spec _ _ _).2.2.1
  · split
    · split
      · exact (smart_scroll_spec _ _ _).2.2.1
      · exact (smart_scroll_spec _ _ _).2.2.1
    · exact globalLe_refl st.g

theorem postBlock_visited (st : LoopState) (post : PostInput) :
    st.visited ⊆ (postBlock st post).final.visited := by
  simp only [postBlock]
  repeat' split
  all_goals exact fun _ hx => hx

theorem postBlock_bounds (st : LoopState) (post : PostInput)
    (hb : BoundsAll st.g st.normalHist) :
    BoundsAll (postBlock st post).final.g (postBlock st post).final.normalHist := by
  simp only [postBlock]
  split
  · split
    · exact boundsAll_mono (globalLe_trans (globalLe_update _ _)
        (smart_scroll_spec _ _ _).2.2.1) hb
    · exact boundsAll_mono (smart_scroll_spec _ _ _).2.2.1 hb
  · split
    · split
      · exact boundsAll_mono (smart_scroll_spec _ _ _).2.2.1 hb
      · exact boundsAll_mono (smart_scroll_spec _ _ _).2.2.1 hb
    · exact hb

theorem loopGo_glob (world : ℕ → IterInput) (post : PostInput) :
    ∀ (f i : ℕ) (st : LoopState), GlobalLe (loopGo world post f i st).final.g st.g := by
  intro f
  induction f with
  | zero => intro i st; exact postBlock_glob st post
  | succ f ih =>
    intro i st
    rw [loopGo]
    cases h : loopIter st (world i) with
    | inl st1 =>
      have hg := loopIter_glob st (world i)
      rw [h] at hg
      exact globalLe_trans (ih (i + 1) st1) hg
    | inr r =>
      have hg := loopIter_glob st (world i)
      rw [h] at hg
      exact hg

theorem loopGo_visited (world : ℕ → IterInput) (post : PostInput) :
    ∀ (f i : ℕ) (st : LoopState), st.visited ⊆ (loopGo world post f i st).final.visited := by
  intro f
  induction f with
  | zero => intro i st; exact postBlock_visited st post
  | succ f ih =>
    intro i st
    rw [loopGo]
    cases h : loopIter st (world i) with
    | inl st1 =>
      have hv := loopIter_visited st (world i)
      rw [h] at hv
      exact List.Subset.trans hv (ih (i + 1) st1)
    | inr r =>
      have hv := loopIter_visited st (world i)
      rw [h] at hv
      exact hv

theorem loopGo_bounds (world : ℕ → IterInput) (post : PostInput) :
    ∀ (f i : ℕ) (st : LoopState), BoundsAll st.g st.normalHist →
      BoundsAll (loopGo world post f i st).final.g (loopGo world post f i st).final.normalHist := by
  intro f
  induction f with
  | zero => intro i st hb; exact postBlock_bounds st post hb
  | succ f ih =>
    intro i st hb
    rw [loopGo]
    cases h : loopIter st (world i) with
    | inl st1 =>
      have hbs := loopIter_bounds st (world i) hb
      rw [h] at hbs
      exact ih (i + 1) st1 hbs
    | inr r =>
      have hbs := loopIter_bounds st (world i) hb
      rw [h] at hbs
      exact hbs

theorem loopIter_revisit (st : LoopState) (inp : IterInput)
    (h : (pyTitleStr inp.title, readPrice st.g inp.price) ∈ st.visited) :
    loopIter st inp = .inr ⟨true, some (readPrice st.g inp.price), st⟩ := by
  simp only [loopIter]
  rw [if_pos h]

theorem updateGlobal_cases (g : Option ℚ) (p : ℚ) :
    updateGlobal g p = g ∨
      ∃ v, updateGlobal g p = some v ∧ ∀ w, g = some w → v < w := by
  cases g with
  | none => exact Or.inr ⟨p, rfl, fun w hw => nomatch hw⟩
  | some u =>
    by_cases h : p < u
    · refine Or.inr ⟨p, by simp [updateGlobal, h], fun w hw => ?_⟩
      have : u = w := by simpa using hw
      exact this ▸ h
    · exact Or.inl (by simp [updateGlobal, h])

/-! ## Claim theorems: scroll search and optimization loop -/

/-- C10: `smart_scroll_and_find_cheaper` always returns a `(found, price)`
pair (every exception the script can raise inside it is caught and turned
into a result, which is why the model is a total function); `found = true`
implies the returned price is strictly below the `current_price` argument,
and `found = false` implies the returned price equals `current_price`. -/
theorem c10_scroll_return_contract :
    ∀ (g : Option ℚ) (current_price : ℚ) (inp : ScrollInput),
      ((smart_scroll_and_find_cheaper g current_price inp).found = true →
        (smart_scroll_and_find_cheaper g current_price inp).price < current_price) ∧
      ((smart_scroll_and_find_cheaper g current_price inp).found = false →
        (smart_scroll_and_find_cheaper g current_price inp).price = current_price) :=
  fun g c inp => ⟨(smart_scroll_spec g c inp).1, (smart_scroll_spec g c inp).2.1⟩

theorem c10_witness :
    (smart_scroll_and_find_cheaper none 100 (offerScroll 90)).found = true ∧
    (smart_scroll_and_find_cheaper none 100 (offerScroll 90)).price < 100 ∧
    (smart_scroll_and_find_cheaper none 100 stuckScroll).found = false ∧
    (smart_scroll_and_find_cheaper none 100 stuckScroll).price = 100 := by
  refine ⟨by with_unfolding_all decide,
          (c10_scroll_return_contract none 100 (offerScroll 90)).1 (by with_unfolding_all decide),
          by with_unfolding_all decide,
          (c10_scroll_return_contract none 100 stuckScroll).2 (by with_unfolding_all decide)⟩

/-- C6: the scroll-search strategy performs at most 15 swipe gestures, and
whenever an iteration reaches its swipe and finds the content-tree hash
unchanged (`hashBefore = hashAfter`), the whole search stops there with
`found = false` and a result that does not depend on the remaining trace —
in particular no further screenshot is captured (the shot counter stays at
`shotBump n s sh`). -/
theorem c6_scroll_bounds :
    (∀ (g : Option ℚ) (current : ℚ) (inp : ScrollInput),
      (smart_scroll_and_find_cheaper g current inp).scrolls ≤ 15) ∧
    (∀ (current : ℚ) (g : Option ℚ) (n sc sh : ℕ) (s : ScrollStep)
        (rest : List ScrollStep),
      stepHit current g n sc (shotBump n s sh) s = none → s.scrollErr = false →
      s.hashBefore = s.hashAfter →
      scrollLoop current g n sc sh (s :: rest)
        = ⟨false, current, g, sc + 1, shotBump n s sh⟩) :=
  ⟨fun g c inp => (smart_scroll_spec g c inp).2.2.2, scrollLoop_hash_stop⟩

theorem c6_witness :
    scrollLoop 100 none 0 0 0
      [⟨true, ⟨[], false⟩, true, 2, 2, false⟩, ⟨true, ⟨[⟨5, 1, 1, "q"⟩], false⟩, true, 0, 1, false⟩]
      = ⟨false, 100, none, 1, 1⟩ := by
  have h := c6_scroll_bounds.2 100 none 0 0 0 ⟨true, ⟨[], false⟩, true, 2, 2, false⟩
    [⟨true, ⟨[⟨5, 1, 1, "q"⟩], false⟩, true, 0, 1, false⟩]
    (by with_unfolding_all decide) rfl rfl
  exact h

/-- C4: every update the script performs on `GLOBAL_LOWEST_PRICE` goes
through the guarded assignment `updateGlobal`, which either leaves the value
unchanged or replaces it by a strictly smaller one (setting it only from
`None`); consequently, across any `smart_scroll_and_find_cheaper` call and
any `process_product_page_loop` run, once the global lowest is set it stays
set and never increases. -/
theorem c4_global_lowest_monotone :
    (∀ (g : Option ℚ) (p : ℚ),
      updateGlobal g p = g ∨
        ∃ v, updateGlobal g p = some v ∧ ∀ w, g = some w → v < w) ∧
    (∀ (g : Option ℚ) (current : ℚ) (inp : ScrollInput),
      GlobalLe (smart_scroll_and_find_cheaper g current inp).glob g) ∧
    (∀ (st : LoopState) (world : ℕ → IterInput) (post : PostInput),
      GlobalLe (process_product_page_loop st world post).final.g st.g) :=
  ⟨updateGlobal_cases,
   fun g c inp => (smart_scroll_spec g c inp).2.2.1,
   fun st world post => loopGo_glob world post 3 0 st⟩

theorem c4_witness :
    ∃ w, (process_product_page_loop ⟨some 5, [], [], []⟩ cexWorldC3 defPost).final.g
        = some w ∧ w ≤ 5 :=
  c4_global_lowest_monotone.2.2 ⟨some 5, [], [], []⟩ cexWorldC3 defPost 5 rfl

/-- C5: within a run, the set of visited fingerprints only grows (it is
never cleared), and whenever the fingerprint computed at the start of an
iteration — the pair of the rendered title and the price — is already in the
set, the loop immediately returns SUCCESS with that iteration's price and an
unchanged state, regardless of every other field of the iteration's trace
(in particular before any error check, stock check, or scroll search). -/
theorem c5_fingerprint_dedup :
    (∀ (st : LoopState) (world : ℕ → IterInput) (post : PostInput),
      st.visited ⊆ (process_product_page_loop st world post).final.visited) ∧
    (∀ (st : LoopState) (world : ℕ → IterInput) (post : PostInput),
      (pyTitleStr (world 0).title, readPrice st.g (world 0).price) ∈ st.visited →
      process_product_page_loop st world post
        = ⟨true, some (readPrice st.g (world 0).price), st⟩) := by
  constructor
  · intro st world post
    exact loopGo_visited world post 3 0 st
  · intro st world post h
    have h1 := loopIter_revisit st (world 0) h
    unfold process_product_page_loop
    rw [show (3 : ℕ) = 2 + 1 from rfl, loopGo, h1]

theorem c5_witness :
    process_product_page_loop wVisitedState wWorldC5 defPost
      = ⟨true, some (readPrice wVisitedState.g (wWorldC5 0).price), wVisitedState⟩ ∧
    readPrice wVisitedState.g (wWorldC5 0).price = 7 :=
  ⟨c5_fingerprint_dedup.2 wVisitedState wWorldC5 defPost (by with_unfolding_all decide),
   by with_unfolding_all decide⟩

/-- C3 (amended): starting from the initial empty state, at the end of any
run the global lowest price is set as soon as any normal-branch iteration
recorded a price, and it is less than or equal to every price recorded by a
normal-branch iteration (the prices reaching the update of line 770).  The
final success price itself can exceed the minimum observed price — see the
counterexample. -/
theorem c3_global_bounds_normal_prices :
    ∀ (world : ℕ → IterInput) (post : PostInput),
      BoundsAll (process_product_page_loop initState world post).final.g
        (process_product_page_loop initState world post).final.normalHist := by
  intro world post
  exact loopGo_bounds world post 3 0 initState (fun c hc => absurd hc (List.not_mem_nil c))

theorem c3_witness :
    ∃ v, (process_product_page_loop initState cexWorldC3 defPost).final.g = some v ∧
      v ≤ 100 :=
  c3_global_bounds_normal_prices cexWorldC3 defPost 100 (by with_unfolding_all decide)

/-- C3 (counterexample): in the run `cexWorldC3` the loop observes price 100
on its first screen, follows the oracle to a screen whose actual price is
150, finds nothing cheaper there, and terminates SUCCESS reporting 150 —
strictly above the minimum price 100 observed during the run (the price
history holds both observations). -/
theorem c3_counterexample :
    (process_product_page_loop initState cexWorldC3 defPost).success = true ∧
    (process_product_page_loop initState cexWorldC3 defPost).price = some 150 ∧
    (100 : ℚ) ∈ (process_product_page_loop initState cexWorldC3 defPost).final.hist ∧
    ¬ (150 : ℚ) ≤ 100 := by
  with_unfolding_all decide

/-- C8 (amended): whenever an iteration's fingerprint is new and the error
check reports a page error, the loop invokes the scroll search with the
current price — so an alternative is accepted only if strictly cheaper than
the current price — and then continues on the new page if one was found, or
terminates as FAILURE with the current price otherwise. -/
theorem c8_error_branch :
    ∀ (world : ℕ → IterInput) (post : PostInput) (f i : ℕ) (st : LoopState),
      (pyTitleStr (world i).title, readPrice st.g (world i).price) ∉ st.visited →
      (world i).hasError = true →
      (let current := readPrice st.g (world i).price
       let st1 : LoopState :=
         { st with visited := (pyTitleStr (world i).title, current) :: st.visited,
                   hist := st.hist ++ [current] }
       let r := smart_scroll_and_find_cheaper st.g current (world i).mainScroll
       (r.found = true → r.price < current ∧
          loopGo world post (f + 1) i st
            = loopGo world post f (i + 1) { st1 with g := r.glob }) ∧
       (r.found = false →
          loopGo world post (f + 1) i st
            = ⟨false, some current, { st1 with g := r.glob }⟩)) := by
  intro world post f i st h1 h2
  rw [loopGo]
  simp only [loopIter]
  rw [if_neg h1, if_pos h2]
  constructor
  · intro hf
    refine ⟨(smart_scroll_spec _ _ _).1 hf, ?_⟩
    rw [if_pos hf]
  · intro hf
    rw [if_neg (by simp [hf])]

theorem c8_counterexample :
    (process_product_page_loop initState cexWorldC8 defPost).success = false ∧
    (process_product_page_loop initState cexWorldC8 defPost).price = some 100 ∧
    (cexWorldC8 0).hasError = true ∧
    (cexWorldC8 0).price = some 100 ∧
    ((cexWorldC8 0).mainScroll.steps.map (fun s => s.oracle.cands.map Candidate.price))
      = [[100]] := by
  with_unfolding_all decide

theorem c8_witness :
    (smart_scroll_and_find_cheaper initState.g (readPrice initState.g (wWorldC8 0).price)
        (wWorldC8 0).mainScroll).price < readPrice initState.g (wWorldC8 0).price ∧
    loopGo wWorldC8 defPost (2 + 1) 0 initState
      = loopGo wWorldC8 defPost 2 1
          ⟨some 90, [("E", 100)], [100], []⟩ := by
  have h := (c8_error_branch wWorldC8 defPost 2 0 initState
    (by with_unfolding_all decide) rfl).1 (by with_unfolding_all decide)
  refine ⟨h.1, ?_⟩
  rw [h.2]
  with_unfolding_all rfl

/-! ## Claim theorems: out-of-stock check -/

/-- C1 (counterexample): on a screen showing `Out of Stock`, `Sold Out` and
an `Add to Cart` button, two unavailability phrases match, so
`check_out_of_stock` returns true even though a purchase affordance is
present — the ≥2-phrase early return at line 539 precedes the button check
at line 544, contradicting the claim that a purchase affordance forces
false regardless of the number of unavailability phrases. -/
theorem c1_counterexample :
    check_out_of_stock c1Screen false = true ∧
    c1Screen "Add to Cart" = true ∧
    (stock_indicators.filter c1Screen).length = 2 := by
  with_unfolding_all decide

/-- C1 (amended): on every screen on which a purchase affordance is present,
*fewer than two* unavailability phrases are found, and the button check does
not raise, `check_out_of_stock` returns false. -/
theorem c1_affordance_override :
    ∀ (contains : String → Bool),
      (stock_indicators.filter contains).length < 2 →
      add_to_cart_buttons.any contains = true →
      check_out_of_stock contains false = false := by
  intro contains h1 h2
  simp only [check_out_of_stock]
  rw [if_neg (Nat.not_le.mpr h1), if_pos (by simp [h2])]

theorem c1_witness :
    check_out_of_stock (fun t => ["Notify Me", "Add to Cart"].contains t) false = false :=
  c1_affordance_override _ (by with_unfolding_all decide) (by with_unfolding_all decide)

/-- C2 (counterexample): on a screen showing only `Out of Stock` — exactly
one unavailability phrase, no purchase affordance — `check_out_of_stock`
returns true: the final `return out_of_stock_count > 0` of line 553 already
fires on a single phrase, contradicting the claim that at least two distinct
phrases are required and that a single phrase classifies the page as in
stock. -/
theorem c2_counterexample :
    check_out_of_stock c2Screen false = true ∧
    (stock_indicators.filter c2Screen).length = 1 ∧
    add_to_cart_buttons.any c2Screen = false := by
  with_unfolding_all decide

/-- C2 (amended): on every screen with no purchase affordance present (and
no raise in the button check), `check_out_of_stock` returns true exactly
when at least *one* unavailability phrase is found. -/
theorem c2_no_affordance_threshold :
    ∀ (contains : String → Bool),
      add_to_cart_buttons.any contains = false →
      (check_out_of_stock contains false = true ↔
        1 ≤ (stock_indicators.filter contains).length) := by
  intro contains h
  simp only [check_out_of_stock]
  by_cases h2 : 2 ≤ (stock_indicators.filter contains).length
  · rw [if_pos h2]
    simp only [true_iff]
    omega
  · rw [if_neg h2, if_neg (by simp [h])]
    simp only [decide_eq_true_eq]
    omega

theorem c2_witness :
    check_out_of_stock c2Screen false = true :=
  (c2_no_affordance_threshold c2Screen (by with_unfolding_all decide)).mpr
    (by with_unfolding_all decide)

/-! ## Token lemmas for the price-parser comparison -/

theorem takeWhile_append_head {p : Char → Bool} :
    ∀ (ds : List Char) (a : Char) (xs : List Char), (∀ c ∈ ds, p c = true) →
      p a = false →
      (ds ++ a :: xs).takeWhile p = ds ∧ (ds ++ a :: xs).dropWhile p = a :: xs := by
  intro ds
  induction ds with
  | nil =>
    intro a xs _ ha
    simp [List.takeWhile, List.dropWhile, ha]
  | cons d ds ih =>
    intro a xs hds ha
    have hd : p d = true := hds d (by simp)
    have := ih a xs (fun c hc => hds c (by simp [hc])) ha
    simp [List.takeWhile, List.dropWhile, hd, this.1, this.2]

theorem takeWhile_of_all {p : Char → Bool} :
    ∀ (l : List Char), (∀ c ∈ l, p c = true) →
      l.takeWhile p = l ∧ l.dropWhile p = [] := by
  intro l
  induction l with
  | nil => intro _; simp
  | cons c tl ih =>
    intro h
    have hc : p c = true := h c (by simp)
    have := ih (fun d hd => h d (by simp [hd]))
    simp [List.takeWhile, List.dropWhile, hc, this.1, this.2]

theorem takeWhile_sub {p q : Char → Bool} (hpq : ∀ x, p x = true → q x = true) :
    ∀ (l : List Char),
      l.takeWhile q = l.takeWhile p ++ (l.dropWhile p).takeWhile q := by
  intro l
  induction l with
  | nil => simp
  | cons c tl ih =>
    cases hp : p c with
    | true =>
      have hq := hpq c hp
      simp [List.takeWhile, List.dropWhile, hp, hq, ih]
    | false => simp [List.takeWhile, List.dropWhile, hp]

theorem takeWhile_eq_of_sub {p q : Char → Bool} (hpq : ∀ x, p x = true → q x = true) :
    ∀ (l fs : List Char), l.takeWhile q = fs → (∀ c ∈ fs, p c = true) →
      l.takeWhile p = fs := by
  intro l
  induction l with
  | nil => intro fs h _; simpa using h
  | cons c tl ih =>
    intro fs h hfs
    cases hq : q c with
    | false =>
      rw [List.takeWhile_cons, hq] at h
      have hp : p c = false := by
        cases hpc : p c with
        | false => rfl
        | true => rw [hpq c hpc] at hq; cases hq
      rw [List.takeWhile_cons, hp]
      exact h
    | true =>
      rw [List.takeWhile_cons, hq] at h
      cases fs with
      | nil => cases h
      | cons f fs' =>
        injection h with hcf htl
        have hp : p c = true := by rw [hcf]; exact hfs f (by simp)
        rw [List.takeWhile_cons, hp, hcf]
        exact congrArg _ (ih fs' htl (fun d hd => hfs d (by simp [hd])))

theorem mem_takeWhile_mem {p : Char → Bool} :
    ∀ (l : List Char) (c : Char), c ∈ l.takeWhile p → c ∈ l := by
  intro l
  induction l with
  | nil => intro c h; simpa using h
  | cons x tl ih =>
    intro c h
    rw [List.takeWhile_cons] at h
    cases hx : p x with
    | false => rw [hx] at h; simp at h
    | true =>
      rw [hx] at h
      rcases List.mem_cons.mp h with h | h
      · simp [h]
      · simp [ih c h]

theorem mem_dropWhile_mem {p : Char → Bool} :
    ∀ (l : List Char) (c : Char), c ∈ l.dropWhile p → c ∈ l := by
  intro l
  induction l with
  | nil => intro c h; simpa using h
  | cons x tl ih =>
    intro c h
    rw [List.dropWhile_cons] at h
    cases hx : p x with
    | false => rw [hx] at h; simpa using h
    | true => rw [hx] at h; simp [ih c h]

theorem mem_dropWhile_of_not {p : Char → Bool} :
    ∀ (l : List Char) (c : Char), p c = false → c ∈ l → c ∈ l.dropWhile p := by
  intro l
  induction l with
  | nil => intro c _ h; simpa using h
  | cons x tl ih =>
    intro c hc h
    rw [List.dropWhile_cons]
    cases hx : p x with
    | false =>
      simpa using h
    | true =>
      rcases List.mem_cons.mp h with h | h
      · rw [h] at hc; rw [hc] at hx; cases hx
      · simpa using ih c hc h

theorem head_dropWhile_not {p : Char → Bool} :
    ∀ (l : List Char) (a : Char) (tl : List Char), l.dropWhile p = a :: tl →
      p a = false := by
  intro l
  induction l with
  | nil => intro a tl h; cases h
  | cons x xs ih =>
    intro a tl h
    rw [List.dropWhile_cons] at h
    cases hx : p x with
    | false =>
      rw [hx] at h
      obtain ⟨h1, _⟩ := List.cons.injEq .. ▸ h
      exact h1 ▸ hx
    | true => rw [hx] at h; exact ih a tl h

theorem ws_not_digit : ∀ c : Char, isWs c = true → c.isDigit = false := by
  intro c h
  simp only [isWs, Bool.or_eq_true, beq_iff_eq] at h
  rcases h with ((((h | h) | h) | h) | h) | h <;> subst h <;> decide

theorem ws_not_dot : ∀ c : Char, isWs c = true → (c = '.') = False := by
  intro c h
  simp only [isWs, Bool.or_eq_true, beq_iff_eq] at h
  rcases h with ((((h | h) | h) | h) | h) | h <;> subst h <;> simp

theorem digit_not_ws : ∀ c : Char, c.isDigit = true → isWs c = false := by
  intro c h
  cases hw : isWs c with
  | false => rfl
  | true => rw [ws_not_digit c hw] at h; cases h

theorem digit_ne_dot : ∀ c : Char, c.isDigit = true → (c = '.') = False := by
  intro c h
  simp only [eq_iff_iff, iff_false]
  intro hc
  rw [hc] at h
  cases h

theorem takeWhile_append_fail {p : Char → Bool} :
    ∀ (xs ts : List Char), (∀ c ∈ ts, p c = false) →
      (xs ++ ts).takeWhile p = xs.takeWhile p ∧
      (xs ++ ts).dropWhile p = xs.dropWhile p ++ ts := by
  intro xs
  induction xs with
  | nil =>
    intro ts hts
    constructor
    · cases ts with
      | nil => rfl
      | cons a tl => simp [List.takeWhile_cons, hts a (by simp)]
    · cases ts with
      | nil => rfl
      | cons a tl => simp [List.dropWhile_cons, hts a (by simp)]
  | cons x xs ih =>
    intro ts hts
    have h := ih ts hts
    cases hx : p x with
    | true => simp [List.takeWhile_cons, List.dropWhile_cons, hx, h.1, h.2]
    | false => simp [List.takeWhile_cons, List.dropWhile_cons, hx]

theorem tok1_no_digit : ∀ cs : List Char, (∀ c ∈ cs, c.isDigit = false) →
    tok1 cs = none := by
  intro cs
  induction cs with
  | nil => intro _; rfl
  | cons c rest ih =>
    intro h
    simp [tok1, h c (by simp), ih (fun d hd => h d (by simp [hd]))]

theorem tok1_none_no_digit : ∀ cs : List Char, tok1 cs = none →
    ∀ c ∈ cs, c.isDigit = false := by
  intro cs
  induction cs with
  | nil => intro _ c hc; simp at hc
  | cons x rest ih =>
    intro h c hc
    cases hx : x.isDigit with
    | true => simp [tok1, hx] at h
    | false =>
      have h' : tok1 rest = none := by simpa [tok1, hx] using h
      rcases List.mem_cons.mp hc with rfl | hc
      · exact hx
      · exact ih h' c hc

theorem tokFrac_append : ∀ (d ts : List Char), (∀ c ∈ ts, isWs c = true) →
    tokFrac (d ++ ts) = tokFrac d := by
  intro d ts hts
  cases d with
  | nil =>
    cases ts with
    | nil => rfl
    | cons a tl =>
      have ha := ws_not_dot a (hts a (by simp))
      simp only [List.nil_append, tokFrac]
      rw [if_neg (by simp [ha])]
  | cons a d' =>
    by_cases ha : a = '.'
    · subst ha
      have h1 := (takeWhile_append_fail d' ts
        (fun c hc => ws_not_digit c (hts c hc))).1
      simp only [List.cons_append, tokFrac, if_pos rfl, h1]
    · simp only [List.cons_append, tokFrac]
      rw [if_neg ha, if_neg ha]

theorem tok1_append_ws : ∀ (ys ts : List Char), (∀ c ∈ ts, isWs c = true) →
    tok1 (ys ++ ts) = tok1 ys := by
  intro ys
  induction ys with
  | nil =>
    intro ts hts
    simp only [List.nil_append]
    rw [tok1_no_digit ts (fun c hc => ws_not_digit c (hts c hc))]
    rfl
  | cons c ys' ih =>
    intro ts hts
    cases hc : c.isDigit with
    | false => simp [tok1, hc, ih ts hts]
    | true =>
      have hfail : ∀ d ∈ ts, Char.isDigit d = false :=
        fun d hd => ws_not_digit d (hts d hd)
      have h1 := takeWhile_append_fail (c :: ys') ts hfail
      have e1 := h1.1
      have e2 := h1.2
      simp only [List.cons_append] at e1 e2
      simp [tok1, hc, e1, e2, tokFrac_append _ ts hts]

theorem tok1_dropWhile_ws : ∀ cs : List Char, tok1 (cs.dropWhile isWs) = tok1 cs := by
  intro cs
  induction cs with
  | nil => rfl
  | cons c rest ih =>
    cases hw : isWs c with
    | false => simp [List.dropWhile_cons, hw]
    | true =>
      have hd := ws_not_digit c hw
      simp [List.dropWhile_cons, hw, ih, tok1, hd]

theorem pyStrip_decomp : ∀ cs : List Char, ∃ ts, cs.dropWhile isWs = pyStrip cs ++ ts ∧
    ∀ c ∈ ts, isWs c = true := by
  intro cs
  refine ⟨((cs.dropWhile isWs).reverse.takeWhile isWs).reverse, ?_, ?_⟩
  · have h := List.takeWhile_append_dropWhile (p := isWs) (l := (cs.dropWhile isWs).reverse)
    have h2 := congrArg List.reverse h
    rw [List.reverse_append, List.reverse_reverse] at h2
    exact h2.symm
  · intro c hc
    rw [List.mem_reverse] at hc
    exact List.mem_takeWhile_imp hc

theorem tok1_pyStrip : ∀ cs : List Char, tok1 (pyStrip cs) = tok1 cs := by
  intro cs
  obtain ⟨ts, hts, hws⟩ := pyStrip_decomp cs
  calc tok1 (pyStrip cs) = tok1 (pyStrip cs ++ ts) := (tok1_append_ws _ ts hws).symm
    _ = tok1 (cs.dropWhile isWs) := by rw [← hts]
    _ = tok1 cs := tok1_dropWhile_ws cs

theorem digit_mem_pyStrip : ∀ (cs : List Char) (c : Char), c ∈ cs → c.isDigit = true →
    c ∈ pyStrip cs := by
  intro cs c hc hd
  have hw : isWs c = false := digit_not_ws c hd
  have h1 : c ∈ cs.dropWhile isWs := mem_dropWhile_of_not cs c hw hc
  have h2 : c ∈ (cs.dropWhile isWs).reverse := List.mem_reverse.mpr h1
  have h3 := mem_dropWhile_of_not _ c hw h2
  exact List.mem_reverse.mpr h3

theorem shapeOk_digits : ∀ ds : List Char, ds ≠ [] → (∀ x ∈ ds, x.isDigit = true) →
    shapeOk ds = true := by
  intro ds hne hall
  have h := takeWhile_of_all ds hall
  have h1 : ds.isEmpty = false := by
    cases ds with
    | nil => exact absurd rfl hne
    | cons d ds' => rfl
  simp [shapeOk, h.1, h.2, h1]

theorem shapeOk_frac : ∀ (ds fs : List Char), ds ≠ [] → (∀ x ∈ ds, x.isDigit = true) →
    fs ≠ [] → fs.length ≤ 2 → (∀ x ∈ fs, x.isDigit = true) →
    shapeOk (ds ++ '.' :: fs) = true := by
  intro ds fs hne hall hfne hlen hfall
  have h := takeWhile_append_head ds '.' fs hall (by decide)
  have h1 : ds.isEmpty = false := by
    cases ds with
    | nil => exact absurd rfl hne
    | cons d ds' => rfl
  have h2 : fs.isEmpty = false := by
    cases fs with
    | nil => exact absurd rfl hfne
    | cons f fs' => rfl
  simp [shapeOk, h.1, h.2, h1, h2, hlen, List.all_eq_true.mpr hfall]

theorem tok1_shape : ∀ (cs t : List Char), tok1 cs = some t → shapeOk t = true := by
  intro cs
  induction cs with
  | nil => intro t h; cases h
  | cons c rest ih =>
    intro t h
    cases hc : c.isDigit with
    | false =>
      rw [tok1, if_neg (by simp [hc])] at h
      exact ih t h
    | true =>
      rw [tok1, if_pos hc] at h
      injection h with ht
      subst ht
      have hds_all : ∀ x ∈ List.takeWhile Char.isDigit (c :: rest), x.isDigit = true :=
        fun x hx => List.mem_takeWhile_imp hx
      have hds_ne : List.takeWhile Char.isDigit (c :: rest) ≠ [] := by
        simp [List.takeWhile_cons, hc]
      cases hafter : List.dropWhile Char.isDigit (c :: rest) with
      | nil =>
        simp only [hafter, tokFrac, List.append_nil]
        exact shapeOk_digits _ hds_ne hds_all
      | cons a tl =>
        by_cases hadot : a = '.'
        · subst hadot
          simp only [hafter, tokFrac, if_pos rfl]
          cases hfs : (tl.takeWhile Char.isDigit).isEmpty with
          | true =>
            simp only [hfs, if_true, List.append_nil]
            exact shapeOk_digits _ hds_ne hds_all
          | false =>
            simp only [hfs, Bool.false_eq_true, if_false]
            refine shapeOk_frac _ _ hds_ne hds_all ?_ ?_ ?_
            · cases hfs2 : tl.takeWhile Char.isDigit with
              | nil => rw [hfs2] at hfs; cases hfs
              | cons f fs' => simp [hfs2]
            · simpa using List.length_take_le 2 (tl.takeWhile Char.isDigit)
            · intro x hx
              exact List.mem_takeWhile_imp (List.mem_of_mem_take hx)
        · simp only [hafter, tokFrac]
          rw [if_neg hadot]
          simp only [List.append_nil]
          exact shapeOk_digits _ hds_ne hds_all

theorem digit_bne_dot : ∀ c : Char, c.isDigit = true → (c != '.') = true := by
  intro c h
  have := digit_ne_dot c h
  simp only [eq_iff_iff, iff_false] at this
  simpa using this

theorem shape_pyFloat : ∀ t : List Char, shapeOk t = true → ∃ v, pyFloat t = some v := by
  intro t hs
  have hds_all : ∀ x ∈ t.takeWhile Char.isDigit, x.isDigit = true :=
    fun x hx => List.mem_takeWhile_imp hx
  have htw := List.takeWhile_append_dropWhile (p := Char.isDigit) (l := t)
  cases hrest : t.dropWhile Char.isDigit with
  | nil =>
    rw [hrest, List.append_nil] at htw
    simp only [shapeOk, hrest, Bool.and_true] at hs
    have hall : ∀ x ∈ t, x.isDigit = true := by rw [← htw]; exact hds_all
    have hnotdot : ∀ x ∈ t, (x != '.') = true :=
      fun x hx => digit_bne_dot x (hall x hx)
    have hip := takeWhile_of_all (p := (· != '.')) t hnotdot
    refine ⟨(digitsVal t : ℚ), ?_⟩
    simp only [pyFloat, hip.1, hip.2]
    rw [if_pos]
    rw [Bool.and_eq_true]
    constructor
    · rw [htw] at hs
      exact hs
    · exact List.all_eq_true.mpr hall
  | cons a fs =>
    simp only [shapeOk, hrest, Bool.and_eq_true, Bool.and_assoc] at hs
    obtain ⟨hne, hdot, hfne, hlen, hfall⟩ := hs
    have hadot : a = '.' := by simpa using hdot
    subst hadot
    have ht : t = t.takeWhile Char.isDigit ++ '.' :: fs := by rw [hrest] at htw; exact htw.symm
    have hfd : ∀ x ∈ fs, x.isDigit = true := by
      intro x hx
      exact (List.all_eq_true.mp hfall) x hx
    have hip1 : t.takeWhile (· != '.') = t.takeWhile Char.isDigit := by
      conv_lhs => rw [ht]
      exact (takeWhile_append_head _ '.' fs
        (fun x hx => digit_bne_dot x (hds_all x hx)) (by decide)).1
    have hip2 : t.dropWhile (· != '.') = '.' :: fs := by
      conv_lhs => rw [ht]
      exact (takeWhile_append_head _ '.' fs
        (fun x hx => digit_bne_dot x (hds_all x hx)) (by decide)).2
    have hnomem : ¬ ('.' ∈ fs) := by
      intro hmem
      have := hfd '.' hmem
      cases this
    refine ⟨(digitsVal (t.takeWhile Char.isDigit) : ℚ)
      + (digitsVal fs : ℚ) / (10 : ℚ) ^ fs.length, ?_⟩
    simp only [pyFloat, hip1, hip2]
    rw [if_neg hnomem, if_pos]
    rw [Bool.and_eq_true, Bool.and_eq_true]
    refine ⟨⟨List.all_eq_true.mpr hds_all, hfall⟩, ?_⟩
    rw [Bool.or_eq_true]
    left
    simpa using hne

theorem pyFloat_no_digit : ∀ t : List Char, (∀ c ∈ t, c.isDigit = false) →
    pyFloat t = none := by
  intro t h
  simp only [pyFloat]
  cases hrest : t.dropWhile (· != '.') with
  | nil =>
    rw [if_neg]
    intro hcond
    rw [Bool.and_eq_true] at hcond
    obtain ⟨hne, hall⟩ := hcond
    cases hip : t.takeWhile (· != '.') with
    | nil => rw [hip] at hne; cases hne
    | cons x xs =>
      have hx : x ∈ t := mem_takeWhile_mem t x (by rw [hip]; simp)
      have := (List.all_eq_true.mp (hip ▸ hall)) x (by simp)
      rw [h x hx] at this
      cases this
  | cons a fp =>
    dsimp only
    by_cases hdot : '.' ∈ fp
    · rw [if_pos hdot]
    · rw [if_neg hdot, if_neg]
      intro hcond
      rw [Bool.and_eq_true, Bool.and_eq_true] at hcond
      obtain ⟨⟨hipall, hfpall⟩, hor⟩ := hcond
      rw [Bool.or_eq_true] at hor
      cases hip : t.takeWhile (· != '.') with
      | cons x xs =>
        have hx : x ∈ t := mem_takeWhile_mem t x (by rw [hip]; simp)
        have := (List.all_eq_true.mp (hip ▸ hipall)) x (by simp)
        rw [h x hx] at this
        cases this
      | nil =>
        cases hfp : fp with
        | nil =>
          rw [hip] at hor
          rw [hfp] at hor
          simp at hor
        | cons y ys =>
          have hy : y ∈ t := by
            refine mem_dropWhile_mem (p := (· != '.')) t y ?_
            rw [hrest, hfp]
            simp
          have := (List.all_eq_true.mp (hfp ▸ hfpall)) y (by simp)
          rw [h y hy] at this
          cases this

theorem tok2_digit_free : ∀ (cs t : List Char), (∀ c ∈ cs, c.isDigit = false) →
    tok2 cs = some t → ∀ c ∈ t, c.isDigit = false := by
  intro cs
  induction cs with
  | nil => intro t _ h; cases h
  | cons x rest ih =>
    intro t hnd h
    cases hx : tokChar x with
    | true =>
      rw [tok2, if_pos hx] at h
      injection h with ht
      subst ht
      intro c hc
      exact hnd c (mem_takeWhile_mem _ c hc)
    | false =>
      rw [tok2, if_neg (by simp [hx])] at h
      exact ih t (fun d hd => hnd d (by simp [hd])) h

theorem tok2_shape_tok1 : ∀ (cs t : List Char), tok2 cs = some t → shapeOk t = true →
    tok1 cs = some t := by
  intro cs
  induction cs with
  | nil => intro t h _; cases h
  | cons c rest ih =>
    intro t h hs
    cases htc : tokChar c with
    | false =>
      have hcd : c.isDigit = false := by
        cases hd : c.isDigit with
        | false => rfl
        | true => rw [tokChar, hd] at htc; cases htc
      rw [tok2, if_neg (by simp [htc])] at h
      rw [tok1, if_neg (by simp [hcd])]
      exact ih t h hs
    | true =>
      rw [tok2, if_pos htc] at h
      injection h with ht
      subst ht
      cases hd : c.isDigit with
      | false =>
        exfalso
        have hcdot : c = '.' := by
          rw [tokChar, hd] at htc
          simpa using htc
        rw [List.takeWhile_cons, htc, if_pos rfl] at hs
        rw [shapeOk, List.takeWhile_cons, hd] at hs
        simp at hs
      | true =>
        rw [tok1, if_pos hd]
        have hsplit := takeWhile_sub (p := Char.isDigit) (q := tokChar)
          (fun x hx => by rw [tokChar, hx]; rfl) (c :: rest)
        rw [hsplit]
        refine congrArg some (congrArg _ ?_)
        cases hafter : List.dropWhile Char.isDigit (c :: rest) with
        | nil => rfl
        | cons a tl =>
          have ha : a.isDigit = false := head_dropWhile_not _ _ _ hafter
          by_cases hadot : a = '.'
          · subst hadot
            have hcons : List.takeWhile tokChar ('.' :: tl) = '.' :: List.takeWhile tokChar tl := by
              rw [List.takeWhile_cons]
              rfl
            rw [hcons]
            rw [hsplit, hafter, hcons] at hs
            have hds_all : ∀ x ∈ List.takeWhile Char.isDigit (c :: rest), x.isDigit = true :=
              fun x hx => List.mem_takeWhile_imp hx
            have hshape := takeWhile_append_head (List.takeWhile Char.isDigit (c :: rest))
              '.' (List.takeWhile tokChar tl) hds_all (by decide)
            rw [shapeOk, hshape.1, hshape.2] at hs
            simp only [Bool.and_eq_true, Bool.and_assoc, decide_eq_true_eq] at hs
            obtain ⟨-, -, hfne, hlen, hfall⟩ := hs
            have hfd : ∀ x ∈ List.takeWhile tokChar tl, x.isDigit = true :=
              List.all_eq_true.mp hfall
            have hfs_eq : tl.takeWhile Char.isDigit = tl.takeWhile tokChar :=
              takeWhile_eq_of_sub (fun x hx => by rw [tokChar, hx]; rfl) tl
                (tl.takeWhile tokChar) rfl hfd
            rw [tokFrac, if_pos rfl, hfs_eq]
            have hfne2 : (tl.takeWhile tokChar).isEmpty = false := by
              cases hq : tl.takeWhile tokChar with
              | nil => rw [hq] at hfne; simp at hfne
              | cons q qs => rfl
            rw [hfne2]
            simp only [Bool.false_eq_true, if_false]
            rw [List.take_of_length_le hlen]
          · have hta : tokChar a = false := by
              rw [tokChar, ha]
              simp [hadot]
            rw [List.takeWhile_cons, hta]
            rw [tokFrac, if_neg hadot]
            simp

/-! ## Claim theorems: price parsers -/

/-- C7 (counterexample): on the input `"1.234"` the null-returning variant
parses `1.23` (its regex `\d+(?:\.\d{1,2})?` takes at most two decimal
digits) while the sorting variant parses `1.234` (its regex `[\d.]+` takes
the whole token), so the two variants do not agree on number parsing for
every input. -/
theorem c7_counterexample :
    extract_price_from_text (some "1.234") = some (123 / 100 : ℚ) ∧
    extract_price_value (some "1.234") = ((1234 / 1000 : ℚ) : WithTop ℚ) ∧
    ¬ (((123 / 100 : ℚ) : WithTop ℚ) = ((1234 / 1000 : ℚ) : WithTop ℚ)) := by
  with_unfolding_all decide

/-- C7 (amended): whenever `extract_price_from_text` yields `None`,
`extract_price_value` yields `+inf`; and the two variants agree on the
parsed numeric value whenever the first digit-or-dot token of the cleaned
text itself has the shape `\d+(\.\d{1,2})?` (a digit run optionally followed
by a dot and one or two digits) — the shapes on which the two regexes match
the same token. -/
theorem c7_price_parser_agreement :
    (∀ text : Option String,
      extract_price_from_text text = none → extract_price_value text = ⊤) ∧
    (∀ (s : String) (t : List Char),
      tok2 (pyClean s.toList) = some t → shapeOk t = true →
      ∃ v, pyFloat t = some v ∧ extract_price_from_text (some s) = some v ∧
        extract_price_value (some s) = (v : WithTop ℚ)) := by
  constructor
  · intro text h
    cases text with
    | none => rfl
    | some s =>
      by_cases he : s = ""
      · subst he; simp [extract_price_value]
      by_cases hna : s = "N/A"
      · subst hna; simp [extract_price_value]
      simp only [extract_price_from_text, if_neg he] at h
      simp only [extract_price_value, if_neg (not_or.mpr ⟨he, hna⟩)]
      cases h1 : tok1 (pyStrip (pyClean s.toList)) with
      | some t =>
        rw [h1] at h
        dsimp only at h
        obtain ⟨v, hv⟩ := shape_pyFloat t (tok1_shape _ _ h1)
        rw [hv] at h
        cases h
      | none =>
        have hnd : ∀ c ∈ pyStrip (pyClean s.toList), c.isDigit = false :=
          tok1_none_no_digit _ h1
        have hnd2 : ∀ c ∈ pyClean s.toList, c.isDigit = false := by
          intro c hc
          cases hcd : c.isDigit with
          | false => rfl
          | true => exact absurd hcd (by rw [hnd c (digit_mem_pyStrip _ c hc hcd)]; simp)
        cases h2 : tok2 (pyClean s.toList) with
        | none => rfl
        | some t =>
          dsimp only
          rw [pyFloat_no_digit t (tok2_digit_free _ t hnd2 h2)]
  · intro s t h2 hs
    have hne : s ≠ "" := by
      rintro rfl
      have hx : tok2 (pyClean "".toList) = none := by with_unfolding_all decide
      rw [hx] at h2
      cases h2
    have hna : s ≠ "N/A" := by
      rintro rfl
      have hx : tok2 (pyClean "N/A".toList) = none := by with_unfolding_all decide
      rw [hx] at h2
      cases h2
    have h1 : tok1 (pyClean s.toList) = some t := tok2_shape_tok1 _ t h2 hs
    have h1s : tok1 (pyStrip (pyClean s.toList)) = some t := (tok1_pyStrip _).trans h1
    obtain ⟨v, hv⟩ := shape_pyFloat t hs
    refine ⟨v, hv, ?_, ?_⟩
    · simp only [extract_price_from_text, if_neg hne, h1s, hv]
    · simp only [extract_price_value, if_neg (not_or.mpr ⟨hne, hna⟩), h2, hv]

theorem c7_witness :
    ∃ v, pyFloat ("15.5".toList) = some v ∧
      extract_price_from_text (some "Rs 15.5") = some v ∧
      extract_price_value (some "Rs 15.5") = (v : WithTop ℚ) :=
  c7_price_parser_agreement.2 "Rs 15.5" "15.5".toList
    (by with_unfolding_all decide) (by with_unfolding_all decide)

/-! ## Claim theorems: oracle response parsing -/

/-- C9 (counterexample): for the single available-candidate shape the source
has no pattern-search fallback — on `cexRespC9` the direct `json.loads`
fails and the code yields no candidate (lines 738–739 merely log the
error), although the spec-modelled fallback would extract the braced
substring and succeed.  This refutes the claim that both shapes fall back
to a bracketed/braced substring search. -/
theorem c9_counterexample :
    (parse_available_response cexRespC9).isNone = true ∧
    (spec_available_with_fallback cexRespC9).isSome = true := by
  with_unfolding_all decide

/-- C9 (amended): both shapes strip code-fence markup and never propagate a
parse error.  The cheaper-alternatives list shape falls back to re-parsing
the substring from the first `[` to the last `]`, and when that also fails
the call degrades to an empty candidate list; the single available-candidate
shape has no such fallback and degrades to no candidate directly whenever
the direct parse fails.  The two closing conjuncts exhibit fence-stripping
and the list-shape fallback succeeding on concrete responses. -/
theorem c9_parse_robustness :
    (∀ (current : ℚ) (resp : String),
      (pyJson (stripFences resp)).isNone = true →
      (Option.bind (subFromTo '[' ']' (stripFences resp)) pyJson).isNone = true →
      analyze_screenshot_for_cheaper_products current resp = ⟨[], false⟩) ∧
    (∀ resp : String, (pyJson (stripFences resp)).isNone = true →
      parse_available_response resp = none) ∧
    ((analyze_screenshot_for_cheaper_products 20
      "```json\n[\x7b\"price\": 15, \"x\": 54, \"y\": 80, \"title\": \"P\"\x7d]\n```").cands
      = [⟨15, 54, 80, "P"⟩]) ∧
    ((analyze_screenshot_for_cheaper_products 20
      "oops [\x7b\"price\": 15, \"x\": 54, \"y\": 80\x7d] end").cands = [⟨15, 54, 80, ""⟩]) ∧
    ((parse_available_response "```json\n\x7b\"confidence\": \"high\"\x7d\n```").isSome = true) := by
  refine ⟨?_, ?_, ?_, ?_, ?_⟩
  · intro current resp h1 h2
    rw [Option.isNone_iff_eq_none] at h1
    simp only [analyze_screenshot_for_cheaper_products, h1]
    cases hsub : subFromTo '[' ']' (stripFences resp) with
    | none => rfl
    | some sub =>
      rw [hsub] at h2
      have h3 : pyJson sub = none := by
        rw [← Option.isNone_iff_eq_none]
        simpa using h2
      dsimp only
      rw [h3]
  · intro resp h1
    rw [Option.isNone_iff_eq_none] at h1
    simp only [parse_available_response, h1]
  · with_unfolding_all decide
  · with_unfolding_all decide
  · with_unfolding_all decide

theorem c9_witness :
    analyze_screenshot_for_cheaper_products 10 "total garbage" = ⟨[], false⟩ ∧
    parse_available_response cexRespC9 = none :=
  ⟨c9_parse_robustness.1 10 "total garbage" (by with_unfolding_all decide)
      (by with_unfolding_all decide),
   c9_parse_robustness.2.1 cexRespC9 (by with_unfolding_all decide)⟩
